import Mathlib

/-!
Formal model (shallow embedding) of the webhook middleware subsystem of the
ofelia job scheduler: webhook definitions, the registry and configuration
loader, the global and per-job dispatch decision logic, the retry loop of the
delivery engine, body-template rendering, and the template helper functions.

Conventions used throughout:
* Go machine integers (int, int64, time.Duration) are modelled as Lean Int
  with two's-complement wrap-around (wrap64) applied exactly where the Go
  code can overflow.
* Go errors are modelled as Option String / Except String; a nil error is
  none / Except.ok.
* External library calls whose behaviour the claims do not depend on
  (text/template rendering, JSON marshalling, time.ParseDuration) are passed
  in as explicit function parameters (oracles), so every definition stays
  executable and the control flow around them is modelled faithfully.
* Go byte strings are modelled as Lean String (for config fields compared
  only for equality) or List Char (for truncateString, where byte slicing
  matters and each Char stands for one byte).
* The asynchronous `go` statements are modelled by recording, in the result
  of a dispatcher run, which render-and-deliver tasks were spawned; the
  claims are about which tasks get spawned and what the dispatcher returns.
-/

namespace Ofelia

/-- Two's-complement wrap-around of a 64-bit signed machine integer
(Go int / int64 / time.Duration arithmetic). -/
def wrap64 (x : Int) : Int := (x + 2 ^ 63) % 2 ^ 64 - 2 ^ 63

/-- A parsed JSON value, the model of the Go interface value stored in a
webhook definition body (decoded from the JSON config file). -/
inductive GoValue where
  | str (s : String)
  | obj (fields : List (String × GoValue))
  | arr (items : List GoValue)
  | num (n : Int)
  | boolean (b : Bool)
  | null

/-- RetryConfig from the config file: count plus a backoff duration string. -/
structure RetryConfig where
  Count : Int
  Backoff : String

/-- WebhookDefinition, the decoded form of one entry of the webhooks JSON
config file.  The field named Type in the Go source is called WType here
because Type is a Lean keyword.  Headers is an Option to model the Go nil
map (the loader replaces nil by an empty map); Body is an Option to model a
nil interface value. -/
structure WebhookDefinition where
  Name : String
  WType : String
  Active : Bool
  Priority : Int
  URL : String
  Method : String
  Headers : Option (List (String × String))
  Body : Option GoValue
  OnlyOnError : Bool
  Timeout : Int
  Retry : Option RetryConfig

instance : Inhabited WebhookDefinition :=
  ⟨⟨"", "", false, 0, "", "", none, none, false, 0, none⟩⟩

def WebhookTypeError : String := "error"

def WebhookTypeInfo : String := "info"

def WebhookTypeAll : String := "all"

def defaultRetryCount : Int := 0

/-- 1 second in nanoseconds (time.Duration units). -/
def defaultRetryBackoff : Int := 1000000000

/-- Simplified Go %q formatting of a string (the names and type strings the
messages quote contain no characters that %q would escape). -/
def goQuote (s : String) : String := "\"" ++ s ++ "\""

/-- The Webhook middleware struct (middlewares/webhook.go).  The logger and
http.Client fields carry no decision-relevant state and are omitted;
timeout, retryCount and retryBackoff are Go int / time.Duration values. -/
structure Webhook where
  name : String
  webhookType : String
  active : Bool
  url : String
  method : String
  headers : Option (List (String × String))
  body : Option GoValue
  onlyOnError : Bool
  timeout : Int
  retryCount : Int
  retryBackoff : Int

/-- NewWebhookFromDefinition (middlewares/webhook.go).  parseDuration is the
model of time.ParseDuration restricted to what the code observes: none when
parsing fails, otherwise the duration in nanoseconds. -/
def NewWebhookFromDefinition (parseDuration : String → Option Int)
    (d : WebhookDefinition) : Except String Webhook :=
  let timeout := wrap64 (d.Timeout * 1000000000)
  let retryResolved : Except String (Int × Int) :=
    match d.Retry with
    | none => .ok (defaultRetryCount, defaultRetryBackoff)
    | some r =>
      if r.Backoff = "" then .ok (r.Count, defaultRetryBackoff)
      else
        match parseDuration r.Backoff with
        | none => .error ("invalid retry backoff duration " ++ goQuote r.Backoff)
        | some dur => .ok (r.Count, dur)
  retryResolved.map (fun rc =>
    { name := d.Name
      webhookType := d.WType
      active := d.Active
      url := d.URL
      method := d.Method
      headers := d.Headers
      body := d.Body
      onlyOnError := d.OnlyOnError
      timeout := timeout
      retryCount := rc.1
      retryBackoff := rc.2 })

/-- Result of one run of the global dispatcher: whether a background
render-and-deliver task was spawned (the `go w.sendWebhook(ctx)` statement),
and the error value the Run method returns. -/
structure GlobalRunResult where
  spawned : Bool
  returned : Option String

/-- Webhook.Run (middlewares/webhook.go).  failed is ctx.Execution.Failed as
observed after ctx.Stop(err); jobErr is the error returned by ctx.Next(). -/
def Webhook.run (w : Webhook) (failed : Bool) (jobErr : Option String) :
    GlobalRunResult :=
  if !w.active then ⟨false, jobErr⟩
  else
    let shouldSend :=
      if w.webhookType = WebhookTypeAll then true
      else if failed && w.webhookType = WebhookTypeError then true
      else if !failed && w.webhookType = WebhookTypeInfo then true
      else false
    if !shouldSend then ⟨false, jobErr⟩
    else if w.onlyOnError && !failed then ⟨false, jobErr⟩
    else ⟨true, jobErr⟩

/-- The PerJobWebhook middleware struct (middlewares/webhook_perjob.go). -/
structure PerJobWebhook where
  errorWebhooks : List WebhookDefinition
  infoWebhooks : List WebhookDefinition

/-- Result of one run of the per-job dispatcher: the definitions for which a
background render-and-deliver task was spawned (in spawn order), and the
error value the Run method returns. -/
structure PerJobRunResult where
  spawnedDefs : List WebhookDefinition
  returned : Option String

/-- PerJobWebhook.Run (middlewares/webhook_perjob.go). -/
def PerJobWebhook.run (w : PerJobWebhook) (failed : Bool)
    (jobErr : Option String) : PerJobRunResult :=
  let webhooks := if failed then w.errorWebhooks else w.infoWebhooks
  ⟨webhooks.filter (fun d => d.Active), jobErr⟩

/-- One observable event of the retry loop: a time.Sleep of a given duration
(nanoseconds, as a Go time.Duration value), or one call of sendRequest with
its attempt index. -/
inductive RetryEvent where
  | sleep (d : Int)
  | attempt (i : Nat)
deriving Repr, DecidableEq

/-- The body of Webhook.sendWithRetry (middlewares/webhook.go), unrolled over
the remaining number of loop iterations.  outcomes i is the error produced by
the i-th sendRequest call (none = success).  Returns the recorded event trace
and the error value sendWithRetry returns. -/
def retryLoop (outcomes : Nat → Option String) :
    Nat → Nat → Int → Option String → List RetryEvent × Option String
  | 0, _, _, lastErr => ([], lastErr)
  | rem + 1, attempt, backoff, lastErr =>
    let pre : List RetryEvent × Int :=
      if 0 < attempt then ([RetryEvent.sleep backoff], wrap64 (backoff * 2))
      else ([], backoff)
    match outcomes attempt with
    | none => (pre.1 ++ [RetryEvent.attempt attempt], none)
    | some e =>
      let rest := retryLoop outcomes rem (attempt + 1) pre.2 (some e)
      (pre.1 ++ RetryEvent.attempt attempt :: rest.1, rest.2)

/-- Number of iterations of the Go loop
`for attempt := 0; attempt <= w.retryCount; attempt++`. -/
def numIterations (retryCount : Int) : Nat :=
  if retryCount < 0 then 0 else retryCount.toNat + 1

/-- Webhook.sendWithRetry (middlewares/webhook.go). -/
def Webhook.sendWithRetry (w : Webhook) (outcomes : Nat → Option String) :
    List RetryEvent × Option String :=
  retryLoop outcomes (numIterations w.retryCount) 0 w.retryBackoff none

/-- The attempt indices recorded in a retry trace. -/
def attemptIndices (tr : List RetryEvent) : List Nat :=
  tr.filterMap (fun e => match e with
    | RetryEvent.attempt i => some i
    | RetryEvent.sleep _ => none)

/-- The sleep durations recorded in a retry trace, in order. -/
def sleepDurations (tr : List RetryEvent) : List Int :=
  tr.filterMap (fun e => match e with
    | RetryEvent.attempt _ => none
    | RetryEvent.sleep d => some d)

/-- The tail of the event trace of a run of the retry loop in which every
attempt fails, starting at attempt index a ≥ 1 with current backoff c: each
remaining iteration sleeps, then attempts, and the backoff doubles after
each sleep.  This is the shape §4.3 of the spec describes. -/
def failTail (c : Int) (a : Nat) : Nat → List RetryEvent
  | 0 => []
  | m + 1 => RetryEvent.sleep c :: RetryEvent.attempt a :: failTail (c * 2) (a + 1) m

/-- The full event trace of a run of n ≥ 1 attempts that all fail, with
initial backoff b: attempt 0 first (no sleep before it), then sleep/attempt
pairs with doubling backoff, and no sleep after the last attempt. -/
def specFailTrace (b : Int) : Nat → List RetryEvent
  | 0 => []
  | m + 1 => RetryEvent.attempt 0 :: failTail b 1 m

/-- truncateString (the truncate template helper).  maxLen is a Go int; the
string is a Go byte string, modelled as a list of (byte-valued) Chars.
Go slicing s[:k] with negative k panics at run time, modelled as none. -/
def truncateString (maxLen : Int) (s : List Char) : Option (List Char) :=
  if (s.length : Int) ≤ maxLen then some s
  else if maxLen ≤ 3 then
    if maxLen < 0 then none
    else some (s.take maxLen.toNat)
  else some (s.take (maxLen - 3).toNat ++ ['.', '.', '.'])

/-- Modify the OnlyOnError flag of every definition a per-job dispatcher
holds (used to state that the per-job dispatcher never consults the flag). -/
def setOnlyOnError (g : WebhookDefinition → Bool) (pj : PerJobWebhook) :
    PerJobWebhook :=
  ⟨pj.errorWebhooks.map (fun d => { d with OnlyOnError := g d }),
   pj.infoWebhooks.map (fun d => { d with OnlyOnError := g d })⟩

/-- Computation of the spawn decision of the global dispatcher as a single
boolean expression. -/
theorem run_spawned_eq (w : Webhook) (failed : Bool) (jobErr : Option String) :
    (w.run failed jobErr).spawned =
      (w.active &&
        (decide (w.webhookType = WebhookTypeAll) ||
         failed && decide (w.webhookType = WebhookTypeError) ||
         !failed && decide (w.webhookType = WebhookTypeInfo)) &&
        !(w.onlyOnError && !failed)) := by
  unfold Webhook.run
  cases hact : w.active <;> cases failed <;> cases hooe : w.onlyOnError <;>
    by_cases h1 : w.webhookType = WebhookTypeAll <;>
    by_cases h2 : w.webhookType = WebhookTypeError <;>
    by_cases h3 : w.webhookType = WebhookTypeInfo <;>
    simp_all [WebhookTypeAll, WebhookTypeError, WebhookTypeInfo]

/-- C1: the global dispatcher spawns a render-and-deliver task iff the
definition is active, the type classification selects the outcome
(type all, or failed with type error, or not failed with type info), and
not (onlyOnError with a non-failed job); moreover onlyOnError can only
suppress a spawn, never cause one (clearing it never removes a spawn). -/
theorem global_dispatch_spawn_iff (w : Webhook) (failed : Bool)
    (jobErr : Option String) :
    ((w.run failed jobErr).spawned = true ↔
      (w.active = true ∧
        (w.webhookType = WebhookTypeAll ∨
          (failed = true ∧ w.webhookType = WebhookTypeError) ∨
          (failed = false ∧ w.webhookType = WebhookTypeInfo)) ∧
        ¬(w.onlyOnError = true ∧ failed = false))) ∧
    ((w.run failed jobErr).spawned = true →
      (({ w with onlyOnError := false } : Webhook).run failed jobErr).spawned
        = true) := by
  constructor
  · rw [run_spawned_eq]
    cases hact : w.active <;> cases failed <;> cases hooe : w.onlyOnError <;>
      simp
  · intro h
    rw [run_spawned_eq] at h ⊢
    cases hact : w.active <;> cases failed <;> cases hooe : w.onlyOnError <;>
      simp_all

/-- C3: both dispatchers return exactly the error produced by the wrapped
job pipeline, unchanged, on every branch. -/
theorem dispatchers_return_job_error (failed : Bool) (jobErr : Option String) :
    (∀ w : Webhook, (w.run failed jobErr).returned = jobErr) ∧
    (∀ pj : PerJobWebhook, (pj.run failed jobErr).returned = jobErr) := by
  refine ⟨fun w => ?_, fun pj => rfl⟩
  unfold Webhook.run
  split_ifs <;> rfl

/-- C7: the per-job dispatcher spawns a task for exactly the active
definitions of the error-set when the job failed, and of the info-set when
it did not; and the OnlyOnError flags of the definitions are never
consulted (rewriting them commutes with the dispatcher). -/
theorem perjob_spawn_exactly_active (pj : PerJobWebhook) (failed : Bool)
    (jobErr : Option String) :
    (pj.run failed jobErr).spawnedDefs =
      (if failed then pj.errorWebhooks else pj.infoWebhooks).filter
        (fun d => d.Active) ∧
    ∀ g : WebhookDefinition → Bool,
      ((setOnlyOnError g pj).run failed jobErr).spawnedDefs =
        ((pj.run failed jobErr).spawnedDefs).map
          (fun d => { d with OnlyOnError := g d }) := by
  refine ⟨rfl, fun g => ?_⟩
  unfold PerJobWebhook.run setOnlyOnError
  cases failed <;> simp [List.filter_map] <;> rfl

/-- C9 counterexample: at width 3 the input "hello" (length 5 > 3) is cut,
but the result "hel" does not end with the truncation marker, contradicting
the claim that every cut result ends with "...". -/
theorem truncate_marker_counterexample :
    truncateString 3 ['h', 'e', 'l', 'l', 'o'] = some ['h', 'e', 'l'] ∧
    ¬ (['.', '.', '.'] <:+ ['h', 'e', 'l']) := by
  constructor
  · rfl
  · decide

/-- C9 amended: the input is returned unchanged when its length is at most
the width; when content is cut and the width exceeds 3 the result has
exactly the given width and ends with "..."; when content is cut at a width
between 0 and 3 the result is the bare prefix of the given width (no
marker). -/
theorem truncate_amended (maxLen : Int) (s : List Char) :
    ((s.length : Int) ≤ maxLen → truncateString maxLen s = some s) ∧
    (maxLen < (s.length : Int) → 3 < maxLen →
      truncateString maxLen s =
        some (s.take (maxLen - 3).toNat ++ ['.', '.', '.']) ∧
      ((s.take (maxLen - 3).toNat ++ ['.', '.', '.']).length : Int) = maxLen ∧
      ['.', '.', '.'] <:+ s.take (maxLen - 3).toNat ++ ['.', '.', '.']) ∧
    (maxLen < (s.length : Int) → 0 ≤ maxLen → maxLen ≤ 3 →
      truncateString maxLen s = some (s.take maxLen.toNat)) := by
  refine ⟨fun hle => ?_, fun hgt h3 => ⟨?_, ?_, List.suffix_append _ _⟩,
    fun hgt h0 h3 => ?_⟩
  · simp [truncateString, hle]
  · simp only [truncateString]
    rw [if_neg (by omega), if_neg (by omega)]
  · have htake : (s.take (maxLen - 3).toNat).length = (maxLen - 3).toNat := by
      rw [List.length_take]
      omega
    simp [htake]
    omega
  · simp only [truncateString]
    rw [if_neg (by omega), if_pos (by omega), if_neg (by omega)]

/-- C9 witness for the amended theorem: the two examples from the spec,
truncate 5 "hello world" = "he..." and truncate 20 "short" = "short". -/
theorem truncate_amended_witness :
    truncateString 5 ['h', 'e', 'l', 'l', 'o', ' ', 'w', 'o', 'r', 'l', 'd'] =
      some ['h', 'e', '.', '.', '.'] ∧
    truncateString 20 ['s', 'h', 'o', 'r', 't'] =
      some ['s', 'h', 'o', 'r', 't'] := by
  constructor
  · have h := (truncate_amended 5
      ['h', 'e', 'l', 'l', 'o', ' ', 'w', 'o', 'r', 'l', 'd']).2.1
      (by decide) (by decide)
    exact h.1.trans (by decide)
  · exact (truncate_amended 20 ['s', 'h', 'o', 'r', 't']).1 (by decide)

/-- C10: a negative retry count is accepted unvalidated by
NewWebhookFromDefinition, and makes the retry loop body never execute: the
event trace is empty (zero sendRequest calls, zero sleeps) and nil is
returned, so the caller takes its success branch although no request was
ever sent. -/
theorem negative_retry_count_sends_nothing :
    (∀ (w : Webhook) (outcomes : Nat → Option String), w.retryCount < 0 →
      w.sendWithRetry outcomes = ([], none)) ∧
    (∀ (parseDuration : String → Option Int) (d : WebhookDefinition)
        (r : RetryConfig), d.Retry = some r → r.Backoff = "" →
      ∃ w : Webhook, NewWebhookFromDefinition parseDuration d = .ok w ∧
        w.retryCount = r.Count) := by
  constructor
  · intro w outcomes h
    unfold Webhook.sendWithRetry numIterations
    rw [if_pos h]
    rfl
  · intro parseDuration d r hr hb
    refine ⟨{ name := d.Name
              webhookType := d.WType
              active := d.Active
              url := d.URL
              method := d.Method
              headers := d.Headers
              body := d.Body
              onlyOnError := d.OnlyOnError
              timeout := wrap64 (d.Timeout * 1000000000)
              retryCount := r.Count
              retryBackoff := defaultRetryBackoff }, ?_, rfl⟩
    unfold NewWebhookFromDefinition
    rw [hr]
    simp [hb, Except.map]

/-- C10 witness: a concrete definition with retry count -1 is accepted, and
its delivery performs zero attempts and returns nil. -/
theorem negative_retry_count_witness :
    (∃ w : Webhook,
      NewWebhookFromDefinition (fun _ => none)
        { Name := "w", WType := "all", Active := true, Priority := 0,
          URL := "http://x", Method := "POST", Headers := some [],
          Body := none, OnlyOnError := false, Timeout := 10,
          Retry := some ⟨-1, ""⟩ } = .ok w ∧
      w.retryCount = -1 ∧
      w.sendWithRetry (fun _ => some "err") = ([], none)) := by
  obtain ⟨w, hok, hrc⟩ :=
    negative_retry_count_sends_nothing.2 (fun _ => none)
      { Name := "w", WType := "all", Active := true, Priority := 0,
        URL := "http://x", Method := "POST", Headers := some [],
        Body := none, OnlyOnError := false, Timeout := 10,
        Retry := some ⟨-1, ""⟩ } ⟨-1, ""⟩ rfl rfl
  exact ⟨w, hok,
    hrc, negative_retry_count_sends_nothing.1 w _ (by rw [hrc]; decide)⟩

/-- A concrete definition used in witnesses: an active error-type webhook. -/
def sampleErrorWebhook : Webhook :=
  { name := "on-fail"
    webhookType := "error"
    active := true
    url := "http://x"
    method := "POST"
    headers := some []
    body := none
    onlyOnError := true
    timeout := 10000000000
    retryCount := 2
    retryBackoff := 5 }

/-- C1 witness: for a concrete active error-type definition and a failed
job, both directions of the characterisation apply: the dispatcher spawns a
task, and clearing onlyOnError keeps the spawn. -/
theorem global_dispatch_spawn_iff_witness :
    (sampleErrorWebhook.run true none).spawned = true ∧
    (({ sampleErrorWebhook with onlyOnError := false } : Webhook).run true
      none).spawned = true := by
  have h := global_dispatch_spawn_iff sampleErrorWebhook true none
  have h1 : (sampleErrorWebhook.run true none).spawned = true :=
    h.1.mpr ⟨rfl, Or.inr (Or.inl ⟨rfl, rfl⟩), by simp⟩
  exact ⟨h1, h.2 h1⟩

lemma wrap64_eq_self {x : Int} (h0 : 0 ≤ x) (h1 : x < 2 ^ 63) :
    wrap64 x = x := by
  have h63 : (2 : Int) ^ 63 = 9223372036854775808 := by norm_num
  have h64 : (2 : Int) ^ 64 = 18446744073709551616 := by norm_num
  unfold wrap64
  rw [h63, h64]
  rw [h63] at h1
  omega

lemma retryLoop_succ_pos (outcomes : Nat → Option String) (rem a : Nat)
    (c : Int) (lastErr : Option String) (ha : 0 < a) :
    retryLoop outcomes (rem + 1) a c lastErr =
      match outcomes a with
      | none => ([RetryEvent.sleep c, RetryEvent.attempt a], none)
      | some e =>
        let rest := retryLoop outcomes rem (a + 1) (wrap64 (c * 2)) (some e)
        (RetryEvent.sleep c :: RetryEvent.attempt a :: rest.1, rest.2) := by
  rw [retryLoop]
  rw [if_pos ha]
  cases h : outcomes a <;> simp [h]

lemma retryLoop_succ_zero (outcomes : Nat → Option String) (rem : Nat)
    (c : Int) (lastErr : Option String) :
    retryLoop outcomes (rem + 1) 0 c lastErr =
      match outcomes 0 with
      | none => ([RetryEvent.attempt 0], none)
      | some e =>
        let rest := retryLoop outcomes rem 1 c (some e)
        (RetryEvent.attempt 0 :: rest.1, rest.2) := by
  rw [retryLoop]
  cases h : outcomes 0 <;> simp [h]

lemma retryLoop_pos_some (outcomes : Nat → Option String) (rem a : Nat)
    (c : Int) (lastErr : Option String) (e : String) (ha : 0 < a)
    (he : outcomes a = some e) :
    retryLoop outcomes (rem + 1) a c lastErr =
      (RetryEvent.sleep c :: RetryEvent.attempt a ::
        (retryLoop outcomes rem (a + 1) (wrap64 (c * 2)) (some e)).1,
       (retryLoop outcomes rem (a + 1) (wrap64 (c * 2)) (some e)).2) := by
  rw [retryLoop_succ_pos outcomes rem a c lastErr ha, he]

lemma retryLoop_pos_none (outcomes : Nat → Option String) (rem a : Nat)
    (c : Int) (lastErr : Option String) (ha : 0 < a)
    (he : outcomes a = none) :
    retryLoop outcomes (rem + 1) a c lastErr =
      ([RetryEvent.sleep c, RetryEvent.attempt a], none) := by
  rw [retryLoop_succ_pos outcomes rem a c lastErr ha, he]

lemma retryLoop_zero_some (outcomes : Nat → Option String) (rem : Nat)
    (c : Int) (lastErr : Option String) (e : String)
    (he : outcomes 0 = some e) :
    retryLoop outcomes (rem + 1) 0 c lastErr =
      (RetryEvent.attempt 0 :: (retryLoop outcomes rem 1 c (some e)).1,
       (retryLoop outcomes rem 1 c (some e)).2) := by
  rw [retryLoop_succ_zero outcomes rem c lastErr, he]

lemma retryLoop_zero_none (outcomes : Nat → Option String) (rem : Nat)
    (c : Int) (lastErr : Option String) (he : outcomes 0 = none) :
    retryLoop outcomes (rem + 1) 0 c lastErr =
      ([RetryEvent.attempt 0], none) := by
  rw [retryLoop_succ_zero outcomes rem c lastErr, he]

lemma two_mul_le_pow {c : Int} (hc : 0 ≤ c) (m : Nat) (hm : 1 ≤ m) :
    c * 2 ≤ c * 2 ^ m := by
  have h2 : (2 : Int) ^ 1 ≤ 2 ^ m := pow_le_pow_right₀ (by norm_num) hm
  have := mul_le_mul_of_nonneg_left h2 hc
  simpa using this

lemma retryLoop_all_fail (outcomes : Nat → Option String) :
    ∀ (m a : Nat) (c : Int) (lastErr : Option String), 1 ≤ a → 0 ≤ c →
      c * 2 ^ m < 2 ^ 63 →
      (∀ i, a ≤ i → i < a + m → outcomes i ≠ none) →
      retryLoop outcomes m a c lastErr =
        (failTail c a m, if m = 0 then lastErr else outcomes (a + m - 1)) := by
  intro m
  induction m with
  | zero => intro a c lastErr _ _ _ _; simp [retryLoop, failTail]
  | succ m ih =>
    intro a c lastErr ha hc hov hfail
    have hfa : outcomes a ≠ none := hfail a le_rfl (by omega)
    obtain ⟨e, he⟩ : ∃ e, outcomes a = some e := by
      cases h : outcomes a
      · exact absurd h hfa
      · exact ⟨_, rfl⟩
    rw [retryLoop_pos_some outcomes m a c lastErr e (by omega) he]
    cases m with
    | zero =>
      simp [retryLoop, failTail, he]
    | succ n =>
      have h2c : wrap64 (c * 2) = c * 2 := by
        apply wrap64_eq_self (by omega)
        calc c * 2 ≤ c * 2 ^ (n + 1 + 1) := two_mul_le_pow hc _ (by omega)
        _ < 2 ^ 63 := hov
      rw [h2c]
      rw [ih (a + 1) (c * 2) (some e) (by omega) (by omega)
        (by have h : c * 2 * 2 ^ (n + 1) = c * 2 ^ (n + 1 + 1) := by ring
            rw [h]
            exact hov)
        (fun i hi1 hi2 => hfail i (by omega) (by omega))]
      simp only [failTail]
      refine congrArg₂ Prod.mk rfl ?_
      have h : a + 1 + (n + 1) - 1 = a + (n + 1 + 1) - 1 := by omega
      simp [h]

lemma retryLoop_success (outcomes : Nat → Option String) :
    ∀ (k m a : Nat) (c : Int) (lastErr : Option String), 1 ≤ a → 0 ≤ c →
      c * 2 ^ m < 2 ^ 63 → k < m →
      outcomes (a + k) = none →
      (∀ i, a ≤ i → i < a + k → outcomes i ≠ none) →
      retryLoop outcomes m a c lastErr = (failTail c a (k + 1), none) := by
  intro k
  induction k with
  | zero =>
    intro m a c lastErr ha hc hov hkm hnone _
    obtain ⟨m', rfl⟩ : ∃ m', m = m' + 1 := ⟨m - 1, by omega⟩
    simp only [Nat.add_zero] at hnone
    rw [retryLoop_pos_none outcomes m' a c lastErr (by omega) hnone]
    rfl
  | succ k ih =>
    intro m a c lastErr ha hc hov hkm hnone hfail
    obtain ⟨m', rfl⟩ : ∃ m', m = m' + 1 := ⟨m - 1, by omega⟩
    have hfa : outcomes a ≠ none := hfail a le_rfl (by omega)
    obtain ⟨e, he⟩ : ∃ e, outcomes a = some e := by
      cases h : outcomes a
      · exact absurd h hfa
      · exact ⟨_, rfl⟩
    rw [retryLoop_pos_some outcomes m' a c lastErr e (by omega) he]
    have h2c : wrap64 (c * 2) = c * 2 := by
      apply wrap64_eq_self (by omega)
      calc c * 2 ≤ c * 2 ^ (m' + 1) := two_mul_le_pow hc _ (by omega)
      _ < 2 ^ 63 := hov
    rw [h2c]
    rw [ih m' (a + 1) (c * 2) (some e) (by omega) (by omega)
      (by have : c * 2 * 2 ^ m' = c * 2 ^ (m' + 1) := by ring
          rw [this]
          exact hov)
      (by omega)
      (by have : a + 1 + k = a + (k + 1) := by omega
          rw [this]
          exact hnone)
      (fun i hi1 hi2 => hfail i (by omega) (by omega))]
    rfl

lemma attemptIndices_failTail (c : Int) (a m : Nat) :
    ∀ (c : Int) (a : Nat), attemptIndices (failTail c a m) = List.range' a m := by
  induction m with
  | zero => intro c a; rfl
  | succ m ih =>
    intro c a
    simp only [failTail, attemptIndices, List.filterMap_cons]
    have := ih (c * 2) (a + 1)
    simp only [attemptIndices] at this
    rw [this]
    rfl

lemma sleepDurations_failTail (m : Nat) :
    ∀ (c : Int) (a : Nat),
      sleepDurations (failTail c a m) =
        (List.range m).map (fun i => c * 2 ^ i) := by
  induction m with
  | zero => intro c a; rfl
  | succ m ih =>
    intro c a
    simp only [failTail, sleepDurations, List.filterMap_cons]
    have := ih (c * 2) (a + 1)
    simp only [sleepDurations] at this
    rw [this, List.range_succ_eq_map, List.map_cons, List.map_map]
    refine congrArg₂ List.cons (by ring) ?_
    refine List.map_congr_left (fun i _ => ?_)
    simp [Function.comp]
    ring

lemma attemptIndices_specFailTrace (b : Int) (n : Nat) :
    attemptIndices (specFailTrace b n) = List.range n := by
  cases n with
  | zero => rfl
  | succ m =>
    simp only [specFailTrace, attemptIndices, List.filterMap_cons]
    have := attemptIndices_failTail b 1 m b 1
    simp only [attemptIndices] at this
    rw [this, List.range_eq_range']
    rfl

lemma sleepDurations_specFailTrace (b : Int) (n : Nat) :
    sleepDurations (specFailTrace b (n + 1)) =
      (List.range n).map (fun i => b * 2 ^ i) := by
  simp only [specFailTrace, sleepDurations, List.filterMap_cons]
  have := sleepDurations_failTail n b 1
  simp only [sleepDurations] at this
  rw [this]

lemma numIterations_coe (N : Nat) : numIterations (N : Int) = N + 1 := by
  unfold numIterations
  simp

/-- C2: with retry count N ≥ 0 and a backoff that stays within the int64
range, sendWithRetry performs exactly N+1 attempts when every attempt fails
(trace: attempt 0, then sleep/attempt pairs with the sleep durations
doubling from the configured backoff, no sleep before the first or after
the last attempt), returning the last attempt's error; and when attempt k
is the first success it stops right there, performing only attempts 0..k
and returning nil. -/
theorem sendWithRetry_spec (w : Webhook) (N : Nat)
    (outcomes : Nat → Option String) (hN : w.retryCount = (N : Int))
    (hb0 : 0 ≤ w.retryBackoff) (hov : w.retryBackoff * 2 ^ N < 2 ^ 63) :
    ((∀ i, i ≤ N → outcomes i ≠ none) →
      w.sendWithRetry outcomes =
        (specFailTrace w.retryBackoff (N + 1), outcomes N) ∧
      attemptIndices (w.sendWithRetry outcomes).1 = List.range (N + 1) ∧
      sleepDurations (w.sendWithRetry outcomes).1 =
        (List.range N).map (fun i => w.retryBackoff * 2 ^ i)) ∧
    (∀ k, k ≤ N → outcomes k = none → (∀ i, i < k → outcomes i ≠ none) →
      w.sendWithRetry outcomes =
        (specFailTrace w.retryBackoff (k + 1), none) ∧
      attemptIndices (w.sendWithRetry outcomes).1 = List.range (k + 1)) := by
  have hrun : w.sendWithRetry outcomes =
      retryLoop outcomes (N + 1) 0 w.retryBackoff none := by
    unfold Webhook.sendWithRetry
    rw [hN, numIterations_coe]
  constructor
  · intro hfail
    have hfa : outcomes 0 ≠ none := hfail 0 (Nat.zero_le N)
    obtain ⟨e, he⟩ : ∃ e, outcomes 0 = some e := by
      cases h : outcomes 0
      · exact absurd h hfa
      · exact ⟨_, rfl⟩
    have heq : w.sendWithRetry outcomes =
        (specFailTrace w.retryBackoff (N + 1), outcomes N) := by
      rw [hrun, retryLoop_zero_some outcomes N w.retryBackoff none e he]
      rw [retryLoop_all_fail outcomes N 1 w.retryBackoff (some e) le_rfl hb0
        hov (fun i hi1 hi2 => hfail i (by omega))]
      simp only [specFailTrace]
      refine congrArg₂ Prod.mk rfl ?_
      cases N with
      | zero => simp [he]
      | succ n => simp
    refine ⟨heq, ?_, ?_⟩
    · rw [heq, attemptIndices_specFailTrace]
    · rw [heq, sleepDurations_specFailTrace]
  · intro k hk hknone hkfail
    have heq : w.sendWithRetry outcomes =
        (specFailTrace w.retryBackoff (k + 1), none) := by
      rw [hrun]
      cases k with
      | zero =>
        rw [retryLoop_zero_none outcomes N w.retryBackoff none hknone]
        rfl
      | succ k =>
        have hfa : outcomes 0 ≠ none := hkfail 0 (by omega)
        obtain ⟨e, he⟩ : ∃ e, outcomes 0 = some e := by
          cases h : outcomes 0
          · exact absurd h hfa
          · exact ⟨_, rfl⟩
        rw [retryLoop_zero_some outcomes N w.retryBackoff none e he]
        rw [retryLoop_success outcomes k N 1 w.retryBackoff (some e) le_rfl
          hb0 hov (by omega)
          (by have : 1 + k = k + 1 := by omega
              rw [this]
              exact hknone)
          (fun i hi1 hi2 => hkfail i (by omega))]
        rfl
    exact ⟨heq, by rw [heq, attemptIndices_specFailTrace]⟩

/-- C2 witness: retry count 2, backoff 5: three failing attempts with sleeps
5 then 10 between them and the last error returned; and success at attempt 1
stops after two attempts with a single sleep, returning nil. -/
theorem sendWithRetry_spec_witness :
    sampleErrorWebhook.sendWithRetry (fun _ => some "boom") =
      ([RetryEvent.attempt 0, RetryEvent.sleep 5, RetryEvent.attempt 1,
        RetryEvent.sleep 10, RetryEvent.attempt 2], some "boom") ∧
    sampleErrorWebhook.sendWithRetry
        (fun i => if i = 1 then none else some "boom") =
      ([RetryEvent.attempt 0, RetryEvent.sleep 5, RetryEvent.attempt 1],
        none) := by
  constructor
  · have h := (sendWithRetry_spec sampleErrorWebhook 2 (fun _ => some "boom")
      rfl (by norm_num [sampleErrorWebhook]) (by norm_num [sampleErrorWebhook])).1
      (fun i _ => by simp)
    exact h.1.trans (by decide)
  · have h := (sendWithRetry_spec sampleErrorWebhook 2
      (fun i => if i = 1 then none else some "boom")
      rfl (by norm_num [sampleErrorWebhook])
      (by norm_num [sampleErrorWebhook])).2 1 (by omega) (by simp)
      (fun i hi => by interval_cases i <;> simp)
    exact h.1.trans (by decide)

/-! ### Arrays as lists: the indexed get/set/swap primitives used by the
model of Go's sort.Slice.  Out-of-range accesses never occur in the
executions the theorems talk about; the total extensions are irrelevant
defaults (get returns the Inhabited default, set and swap are the
identity, matching List.set). -/

def lget [Inhabited α] (l : List α) (i : Nat) : α := l.getD i default

def lswap [Inhabited α] (l : List α) (i j : Nat) : List α :=
  if i < l.length ∧ j < l.length then
    (l.set i (lget l j)).set j (lget l i)
  else l

lemma lget_cons_zero [Inhabited α] (x : α) (xs : List α) :
    lget (x :: xs) 0 = x := rfl

lemma lget_cons_succ [Inhabited α] (x : α) (xs : List α) (m : Nat) :
    lget (x :: xs) (m + 1) = lget xs m := rfl

lemma cons_set_perm [Inhabited α] (xs : List α) :
    ∀ (m : Nat) (x : α), m < xs.length →
      (lget xs m :: xs.set m x).Perm (x :: xs) := by
  induction xs with
  | nil => intro m x h; simp at h
  | cons y ys ih =>
    intro m x h
    cases m with
    | zero => exact List.Perm.swap x y ys
    | succ m =>
      have h1 : (lget ys m :: y :: ys.set m x).Perm
          (y :: lget ys m :: ys.set m x) := List.Perm.swap _ _ _
      have h2 : (y :: lget ys m :: ys.set m x).Perm (y :: (x :: ys)) :=
        (ih m x (by simpa using Nat.lt_of_succ_lt_succ h)).cons y
      have h3 : (y :: x :: ys).Perm (x :: y :: ys) := List.Perm.swap _ _ _
      exact h1.trans (h2.trans h3)

lemma swap_core_perm [Inhabited α] (xs : List α) :
    ∀ (i j : Nat), i < xs.length → j < xs.length →
      ((xs.set i (lget xs j)).set j (lget xs i)).Perm xs := by
  induction xs with
  | nil => intro i j hi _; simp at hi
  | cons y ys ih =>
    intro i j hi hj
    cases i with
    | zero =>
      cases j with
      | zero => simp [lget]
      | succ m =>
        simpa [lget] using
          cons_set_perm ys m y (by simpa using Nat.lt_of_succ_lt_succ hj)
    | succ m =>
      cases j with
      | zero =>
        simpa [lget] using
          cons_set_perm ys m y (by simpa using Nat.lt_of_succ_lt_succ hi)
      | succ k =>
        simpa [lget] using
          (ih m k (by simpa using Nat.lt_of_succ_lt_succ hi)
            (by simpa using Nat.lt_of_succ_lt_succ hj)).cons y

lemma lswap_perm [Inhabited α] (xs : List α) (i j : Nat) :
    (lswap xs i j).Perm xs := by
  unfold lswap
  split
  · next h => exact swap_core_perm xs i j h.1 h.2
  · exact List.Perm.refl _

lemma lswap_length [Inhabited α] (xs : List α) (i j : Nat) :
    (lswap xs i j).length = xs.length :=
  (lswap_perm xs i j).length_eq

/-- Inner loop of insertionSort_func: bubble the element at index j left
while it is less than its left neighbour (j > a && Less(j, j-1)). -/
def insInner [Inhabited α] (less : α → α → Bool) (a : Nat) :
    Nat → List α → List α
  | 0, xs => xs
  | j + 1, xs =>
    if a ≤ j ∧ less (lget xs (j + 1)) (lget xs j) then
      insInner less a j (lswap xs (j + 1) j)
    else xs

/-- Outer loop of insertionSort_func: for i := a+1; i < b; i++. -/
def insOuter [Inhabited α] (less : α → α → Bool) (a b : Nat) :
    Nat → Nat → List α → List α
  | 0, _, xs => xs
  | fuel + 1, i, xs =>
    if i < b then insOuter less a b fuel (i + 1) (insInner less a i xs)
    else xs

/-- insertionSort_func on the index range [a, b). -/
def insertionSortGo [Inhabited α] (less : α → α → Bool) (a b : Nat)
    (xs : List α) : List α :=
  insOuter less a b (b - (a + 1)) (a + 1) xs

/-- siftDown_func. -/
def siftDown [Inhabited α] (less : α → α → Bool) (hi first : Nat) :
    Nat → Nat → List α → List α
  | 0, _, xs => xs
  | fuel + 1, root, xs =>
    let child := 2 * root + 1
    if hi ≤ child then xs
    else
      let child :=
        if child + 1 < hi ∧
            less (lget xs (first + child)) (lget xs (first + child + 1)) then
          child + 1
        else child
      if ¬ less (lget xs (first + root)) (lget xs (first + child)) then xs
      else siftDown less hi first fuel child (lswap xs (first + root) (first + child))

/-- Heap-building phase of heapSort_func: for i := (hi-1)/2; i >= 0; i--. -/
def heapBuild [Inhabited α] (less : α → α → Bool) (hi first : Nat) :
    Nat → List α → List α
  | 0, xs => xs
  | i + 1, xs => heapBuild less hi first i (siftDown less hi first hi i xs)

/-- Pop phase of heapSort_func: for i := hi-1; i >= 0; i--. -/
def heapPop [Inhabited α] (less : α → α → Bool) (first : Nat) :
    Nat → List α → List α
  | 0, xs => xs
  | i + 1, xs =>
    heapPop less first i
      (siftDown less i first (i + 1) 0 (lswap xs first (first + i)))

/-- heapSort_func on the index range [a, b). -/
def heapSortGo [Inhabited α] (less : α → α → Bool) (a b : Nat)
    (xs : List α) : List α :=
  let first := a
  let hi := b - a
  heapPop less first hi (heapBuild less hi first ((hi - 1) / 2 + 1) xs)

/-- Loop of reverseRange_func. -/
def revLoop [Inhabited α] : Nat → Nat → Nat → List α → List α
  | 0, _, _, xs => xs
  | fuel + 1, i, j, xs =>
    if i < j then revLoop fuel (i + 1) (j - 1) (lswap xs i j) else xs

/-- reverseRange_func on the index range [a, b). -/
def reverseRangeGo [Inhabited α] (a b : Nat) (xs : List α) : List α :=
  revLoop (b - a) a (b - 1) xs

/-- order2_func: order two indices by the values they point to, counting
swaps of the index variables. -/
def order2 [Inhabited α] (less : α → α → Bool) (xs : List α)
    (a b swaps : Nat) : Nat × Nat × Nat :=
  if less (lget xs b) (lget xs a) then (b, a, swaps + 1) else (a, b, swaps)

/-- median_func: index of the median of three values. -/
def median [Inhabited α] (less : α → α → Bool) (xs : List α)
    (a b c swaps : Nat) : Nat × Nat :=
  let r1 := order2 less xs a b swaps
  let r2 := order2 less xs r1.2.1 c r1.2.2
  let r3 := order2 less xs r1.1 r2.1 r2.2.2
  (r3.2.1, r3.2.2)

/-- medianAdjacent_func: median of the value at a and its two neighbours. -/
def medianAdjacent [Inhabited α] (less : α → α → Bool) (xs : List α)
    (a swaps : Nat) : Nat × Nat :=
  median less xs (a - 1) a (a + 1) swaps

inductive SortedHint where
  | unknownHint
  | increasingHint
  | decreasingHint
deriving Repr, DecidableEq

/-- choosePivot_func (maxSwaps = 12, shortestNinther = 50). -/
def choosePivot [Inhabited α] (less : α → α → Bool) (xs : List α)
    (a b : Nat) : Nat × SortedHint :=
  let l := b - a
  let i0 := a + l / 4 * 1
  let j0 := a + l / 4 * 2
  let k0 := a + l / 4 * 3
  let step : Nat × Nat :=
    if 8 ≤ l then
      if 50 ≤ l then
        let r1 := medianAdjacent less xs i0 0
        let r2 := medianAdjacent less xs j0 r1.2
        let r3 := medianAdjacent less xs k0 r2.2
        median less xs r1.1 r2.1 r3.1 r3.2
      else median less xs i0 j0 k0 0
    else (j0, 0)
  if step.2 = 0 then (step.1, SortedHint.increasingHint)
  else if step.2 = 12 then (step.1, SortedHint.decreasingHint)
  else (step.1, SortedHint.unknownHint)

/-- Ascending scan of partialInsertionSort_func: advance i past already
ordered neighbours (for i < b && !Less(i, i-1)). -/
def scanAsc [Inhabited α] (less : α → α → Bool) (b : Nat) :
    Nat → Nat → List α → Nat
  | 0, i, _ => i
  | fuel + 1, i, xs =>
    if i < b ∧ ¬ less (lget xs i) (lget xs (i - 1)) then
      scanAsc less b fuel (i + 1) xs
    else i

/-- Left shift loop of partialInsertionSort_func
(for j := i-1; j >= a+1; j--). -/
def shiftLeftLoop [Inhabited α] (less : α → α → Bool) (a : Nat) :
    Nat → Nat → List α → List α
  | 0, _, xs => xs
  | fuel + 1, j, xs =>
    if a + 1 ≤ j ∧ less (lget xs j) (lget xs (j - 1)) then
      shiftLeftLoop less a fuel (j - 1) (lswap xs j (j - 1))
    else xs

/-- Right shift loop of partialInsertionSort_func. -/
def shiftRightLoop [Inhabited α] (less : α → α → Bool) (b : Nat) :
    Nat → Nat → List α → List α
  | 0, _, xs => xs
  | fuel + 1, j, xs =>
    if j < b ∧ less (lget xs j) (lget xs (j - 1)) then
      shiftRightLoop less b fuel (j + 1) (lswap xs j (j - 1))
    else xs

/-- Step loop of partialInsertionSort_func (maxSteps = 5,
shortestShifting = 50); returns whether the range ended up sorted together
with the modified data. -/
def partialInsLoop [Inhabited α] (less : α → α → Bool) (a b : Nat) :
    Nat → Nat → List α → Bool × List α
  | 0, _, xs => (false, xs)
  | steps + 1, i, xs =>
    let i := scanAsc less b b i xs
    if i = b then (true, xs)
    else if b - a < 50 then (false, xs)
    else
      let xs := lswap xs i (i - 1)
      let xs := if 2 ≤ i - a then shiftLeftLoop less a (i - 1) (i - 1) xs else xs
      let xs :=
        if 2 ≤ b - i then shiftRightLoop less b (b - (i + 1)) (i + 1) xs
        else xs
      partialInsLoop less a b steps i xs

/-- partialInsertionSort_func on the index range [a, b). -/
def partialInsertionSortGo [Inhabited α] (less : α → α → Bool) (a b : Nat)
    (xs : List α) : Bool × List α :=
  partialInsLoop less a b 5 (a + 1) xs

/-- Left scan of partition_func: for i <= j && Less(i, a). -/
def scanLess [Inhabited α] (less : α → α → Bool) (xs : List α) (av : Nat) :
    Nat → Nat → Nat → Nat
  | 0, i, _ => i
  | fuel + 1, i, j =>
    if i ≤ j ∧ less (lget xs i) (lget xs av) then
      scanLess less xs av fuel (i + 1) j
    else i

/-- Right scan of partition_func: for i <= j && !Less(j, a). -/
def scanGeq [Inhabited α] (less : α → α → Bool) (xs : List α) (av : Nat) :
    Nat → Nat → Nat → Nat
  | 0, j, _ => j
  | fuel + 1, j, i =>
    if i ≤ j ∧ ¬ less (lget xs j) (lget xs av) then
      scanGeq less xs av fuel (j - 1) i
    else j

/-- Main loop of partition_func after the first exchange. -/
def partitionLoop [Inhabited α] (less : α → α → Bool) (av : Nat) :
    Nat → Nat → Nat → List α → Nat × List α
  | 0, _, j, xs => (j, xs)
  | fuel + 1, i, j, xs =>
    let i2 := scanLess less xs av (j + 1) i j
    let j2 := scanGeq less xs av (j + 1) j i2
    if j2 < i2 then (j2, xs)
    else partitionLoop less av fuel (i2 + 1) (j2 - 1) (lswap xs i2 j2)

/-- partition_func: Hoare partition around the value at index pivot;
returns the final pivot position, whether the range was already
partitioned, and the permuted data. -/
def partitionGo [Inhabited α] (less : α → α → Bool) (a b pivot : Nat)
    (xs : List α) : Nat × Bool × List α :=
  let xs := lswap xs a pivot
  let i := a + 1
  let j := b - 1
  let i2 := scanLess less xs a (j + 1) i j
  let j2 := scanGeq less xs a (j + 1) j i2
  if j2 < i2 then (j2, true, lswap xs j2 a)
  else
    let r := partitionLoop less a (b + 1) (i2 + 1) (j2 - 1) (lswap xs i2 j2)
    (r.1, false, lswap r.2 r.1 a)

/-- Left scan of partitionEqual_func: for i <= j && !Less(a, i). -/
def scanNotGt [Inhabited α] (less : α → α → Bool) (xs : List α) (av : Nat) :
    Nat → Nat → Nat → Nat
  | 0, i, _ => i
  | fuel + 1, i, j =>
    if i ≤ j ∧ ¬ less (lget xs av) (lget xs i) then
      scanNotGt less xs av fuel (i + 1) j
    else i

/-- Right scan of partitionEqual_func: for i <= j && Less(a, j). -/
def scanGt [Inhabited α] (less : α → α → Bool) (xs : List α) (av : Nat) :
    Nat → Nat → Nat → Nat
  | 0, j, _ => j
  | fuel + 1, j, i =>
    if i ≤ j ∧ less (lget xs av) (lget xs j) then
      scanGt less xs av fuel (j - 1) i
    else j

/-- Loop of partitionEqual_func. -/
def partitionEqualLoop [Inhabited α] (less : α → α → Bool) (av : Nat) :
    Nat → Nat → Nat → List α → Nat × List α
  | 0, i, _, xs => (i, xs)
  | fuel + 1, i, j, xs =>
    let i2 := scanNotGt less xs av (j + 1) i j
    let j2 := scanGt less xs av (j + 1) j i2
    if j2 < i2 then (i2, xs)
    else partitionEqualLoop less av fuel (i2 + 1) (j2 - 1) (lswap xs i2 j2)

/-- partitionEqual_func: move elements equal to the value at index pivot to
the front of the range, returning the first index after them. -/
def partitionEqualGo [Inhabited α] (less : α → α → Bool) (a b pivot : Nat)
    (xs : List α) : Nat × List α :=
  partitionEqualLoop less a (b + 1) (a + 1) (b - 1) (lswap xs a pivot)

/-- The 2^64 - 1 mask for the xorshift generator state. -/
def u64mask : Nat := 18446744073709551615

/-- Next step of the xorshift generator of Go's sort package
(shifts 13, 7, 17 on a uint64 state). -/
def xorshiftNext (r : Nat) : Nat :=
  let r := (Nat.xor r (r <<< 13)) &&& u64mask
  let r := Nat.xor r (r >>> 7)
  (Nat.xor r (r <<< 17)) &&& u64mask

/-- bits.Len for unsigned values. -/
def bitsLen (n : Nat) : Nat := if n = 0 then 0 else Nat.log2 n + 1

/-- Loop of breakPatterns_func: three swaps at pseudo-random offsets. -/
def breakPatternsLoop [Inhabited α] (a len modulus idx : Nat) :
    Nat → Nat → Nat → List α → List α
  | 0, _, _, xs => xs
  | cnt + 1, i, r, xs =>
    let r2 := xorshiftNext r
    let other := r2 &&& (modulus - 1)
    let other := if len ≤ other then other - len else other
    breakPatternsLoop a len modulus idx cnt (i + 1) r2
      (lswap xs (idx + i) (a + other))

/-- breakPatterns_func on the index range [a, b); the generator is seeded
with the range length. -/
def breakPatternsGo [Inhabited α] (a b : Nat) (xs : List α) : List α :=
  let len := b - a
  if 8 ≤ len then
    breakPatternsLoop a len (1 <<< bitsLen len) (a + len / 4 * 2 - 1) 3 0 len xs
  else xs

/-- pdqsort_func (maxInsertion = 12).  The explicit counter is a strict
upper bound on the range length, which strictly decreases both in the
loop (modelled by tail calls) and at recursive calls, so the counter never
reaches 0 on the executions starting from sortSliceGo. -/
def pdqsortRec [Inhabited α] (less : α → α → Bool) :
    Nat → Nat → Nat → Nat → Bool → Bool → List α → List α
  | 0, _, _, _, _, _, xs => xs
  | fuel + 1, a, b, limit, wasBalanced, wasPartitioned, xs =>
    let length := b - a
    if length ≤ 12 then insertionSortGo less a b xs
    else if limit = 0 then heapSortGo less a b xs
    else
      let xs1 := if wasBalanced then xs else breakPatternsGo a b xs
      let limit1 := if wasBalanced then limit else limit - 1
      let cp := choosePivot less xs1 a b
      let pivot1 :=
        if cp.2 = SortedHint.decreasingHint then (b - 1) - (cp.1 - a) else cp.1
      let xs2 :=
        if cp.2 = SortedHint.decreasingHint then reverseRangeGo a b xs1 else xs1
      let hint1 :=
        if cp.2 = SortedHint.decreasingHint then SortedHint.increasingHint
        else cp.2
      let pres :=
        if wasBalanced ∧ wasPartitioned ∧ hint1 = SortedHint.increasingHint then
          partialInsertionSortGo less a b xs2
        else (false, xs2)
      if pres.1 then pres.2
      else
        let xs3 := pres.2
        if 0 < a ∧ ¬ less (lget xs3 (a - 1)) (lget xs3 pivot1) then
          let pe := partitionEqualGo less a b pivot1 xs3
          pdqsortRec less fuel pe.1 b limit1 wasBalanced wasPartitioned pe.2
        else
          let pr := partitionGo less a b pivot1 xs3
          let mid := pr.1
          let alreadyPartitioned := pr.2.1
          let xs4 := pr.2.2
          let leftLen := mid - a
          let rightLen := b - mid
          let balanceThreshold := length / 8
          let wasBalanced2 := balanceThreshold ≤ min leftLen rightLen
          if leftLen < rightLen then
            pdqsortRec less fuel (mid + 1) b limit1 wasBalanced2
              alreadyPartitioned
              (pdqsortRec less fuel a mid limit1 true true xs4)
          else
            pdqsortRec less fuel a mid limit1 wasBalanced2 alreadyPartitioned
              (pdqsortRec less fuel (mid + 1) b limit1 true true xs4)

/-- sort.Slice: pdqsort over the whole list with
limit = bits.Len(uint(length)). -/
def sortSliceGo [Inhabited α] (less : α → α → Bool) (xs : List α) : List α :=
  pdqsortRec less (xs.length + 1) 0 xs.length (bitsLen xs.length) true true xs

/-! ### Every phase of the sort only swaps elements, so each is a
permutation of its input. -/

lemma insInner_perm [Inhabited α] (less : α → α → Bool) (a : Nat) :
    ∀ (j : Nat) (xs : List α), (insInner less a j xs).Perm xs := by
  intro j
  induction j with
  | zero => intro xs; exact List.Perm.refl _
  | succ j ih =>
    intro xs
    rw [insInner]
    split
    · exact (ih _).trans (lswap_perm _ _ _)
    · exact List.Perm.refl _

lemma insOuter_perm [Inhabited α] (less : α → α → Bool) (a b : Nat) :
    ∀ (fuel i : Nat) (xs : List α), (insOuter less a b fuel i xs).Perm xs := by
  intro fuel
  induction fuel with
  | zero => intro i xs; exact List.Perm.refl _
  | succ fuel ih =>
    intro i xs
    rw [insOuter]
    split
    · exact (ih _ _).trans (insInner_perm less a i xs)
    · exact List.Perm.refl _

lemma insertionSortGo_perm [Inhabited α] (less : α → α → Bool) (a b : Nat)
    (xs : List α) : (insertionSortGo less a b xs).Perm xs :=
  insOuter_perm less a b _ _ xs

lemma siftDown_perm [Inhabited α] (less : α → α → Bool) (hi first : Nat) :
    ∀ (fuel root : Nat) (xs : List α),
      (siftDown less hi first fuel root xs).Perm xs := by
  intro fuel
  induction fuel with
  | zero => intro root xs; exact List.Perm.refl _
  | succ fuel ih =>
    intro root xs
    rw [siftDown]
    dsimp only
    split_ifs <;>
      first
        | exact List.Perm.refl _
        | exact (ih _ _).trans (lswap_perm _ _ _)

lemma heapBuild_perm [Inhabited α] (less : α → α → Bool) (hi first : Nat) :
    ∀ (cnt : Nat) (xs : List α), (heapBuild less hi first cnt xs).Perm xs := by
  intro cnt
  induction cnt with
  | zero => intro xs; exact List.Perm.refl _
  | succ cnt ih =>
    intro xs
    rw [heapBuild]
    exact (ih _).trans (siftDown_perm less hi first hi cnt xs)

lemma heapPop_perm [Inhabited α] (less : α → α → Bool) (first : Nat) :
    ∀ (cnt : Nat) (xs : List α), (heapPop less first cnt xs).Perm xs := by
  intro cnt
  induction cnt with
  | zero => intro xs; exact List.Perm.refl _
  | succ cnt ih =>
    intro xs
    rw [heapPop]
    exact (ih _).trans ((siftDown_perm less cnt first (cnt + 1) 0 _).trans
      (lswap_perm _ _ _))

lemma heapSortGo_perm [Inhabited α] (less : α → α → Bool) (a b : Nat)
    (xs : List α) : (heapSortGo less a b xs).Perm xs :=
  (heapPop_perm less a _ _).trans (heapBuild_perm less (b - a) a _ xs)

lemma revLoop_perm [Inhabited α] :
    ∀ (fuel i j : Nat) (xs : List α), (revLoop fuel i j xs).Perm xs := by
  intro fuel
  induction fuel with
  | zero => intro i j xs; exact List.Perm.refl _
  | succ fuel ih =>
    intro i j xs
    rw [revLoop]
    split
    · exact (ih _ _ _).trans (lswap_perm _ _ _)
    · exact List.Perm.refl _

lemma reverseRangeGo_perm [Inhabited α] (a b : Nat) (xs : List α) :
    (reverseRangeGo a b xs).Perm xs :=
  revLoop_perm _ _ _ xs

lemma shiftLeftLoop_perm [Inhabited α] (less : α → α → Bool) (a : Nat) :
    ∀ (fuel j : Nat) (xs : List α),
      (shiftLeftLoop less a fuel j xs).Perm xs := by
  intro fuel
  induction fuel with
  | zero => intro j xs; exact List.Perm.refl _
  | succ fuel ih =>
    intro j xs
    rw [shiftLeftLoop]
    split
    · exact (ih _ _).trans (lswap_perm _ _ _)
    · exact List.Perm.refl _

lemma shiftRightLoop_perm [Inhabited α] (less : α → α → Bool) (b : Nat) :
    ∀ (fuel j : Nat) (xs : List α),
      (shiftRightLoop less b fuel j xs).Perm xs := by
  intro fuel
  induction fuel with
  | zero => intro j xs; exact List.Perm.refl _
  | succ fuel ih =>
    intro j xs
    rw [shiftRightLoop]
    split
    · exact (ih _ _).trans (lswap_perm _ _ _)
    · exact List.Perm.refl _

lemma partialInsLoop_perm [Inhabited α] (less : α → α → Bool) (a b : Nat) :
    ∀ (steps i : Nat) (xs : List α),
      (partialInsLoop less a b steps i xs).2.Perm xs := by
  intro steps
  induction steps with
  | zero => intro i xs; exact List.Perm.refl _
  | succ steps ih =>
    intro i xs
    rw [partialInsLoop]
    dsimp only
    split_ifs <;>
      first
        | exact List.Perm.refl _
        | exact (ih _ _).trans ((shiftRightLoop_perm _ _ _ _ _).trans
            ((shiftLeftLoop_perm _ _ _ _ _).trans (lswap_perm _ _ _)))
        | exact (ih _ _).trans ((shiftLeftLoop_perm _ _ _ _ _).trans
            (lswap_perm _ _ _))
        | exact (ih _ _).trans ((shiftRightLoop_perm _ _ _ _ _).trans
            (lswap_perm _ _ _))
        | exact (ih _ _).trans (lswap_perm _ _ _)

lemma partialInsertionSortGo_perm [Inhabited α] (less : α → α → Bool)
    (a b : Nat) (xs : List α) :
    (partialInsertionSortGo less a b xs).2.Perm xs :=
  partialInsLoop_perm less a b 5 (a + 1) xs

lemma partitionLoop_perm [Inhabited α] (less : α → α → Bool) (av : Nat) :
    ∀ (fuel i j : Nat) (xs : List α),
      (partitionLoop less av fuel i j xs).2.Perm xs := by
  intro fuel
  induction fuel with
  | zero => intro i j xs; exact List.Perm.refl _
  | succ fuel ih =>
    intro i j xs
    rw [partitionLoop]
    split
    · exact List.Perm.refl _
    · exact (ih _ _ _).trans (lswap_perm _ _ _)

lemma partitionGo_perm [Inhabited α] (less : α → α → Bool) (a b pivot : Nat)
    (xs : List α) : (partitionGo less a b pivot xs).2.2.Perm xs := by
  rw [partitionGo]
  split
  · exact (lswap_perm _ _ _).trans (lswap_perm _ _ _)
  · exact (lswap_perm _ _ _).trans
      ((partitionLoop_perm _ _ _ _ _ _).trans
        ((lswap_perm _ _ _).trans (lswap_perm _ _ _)))

lemma partitionEqualLoop_perm [Inhabited α] (less : α → α → Bool) (av : Nat) :
    ∀ (fuel i j : Nat) (xs : List α),
      (partitionEqualLoop less av fuel i j xs).2.Perm xs := by
  intro fuel
  induction fuel with
  | zero => intro i j xs; exact List.Perm.refl _
  | succ fuel ih =>
    intro i j xs
    rw [partitionEqualLoop]
    split
    · exact List.Perm.refl _
    · exact (ih _ _ _).trans (lswap_perm _ _ _)

lemma partitionEqualGo_perm [Inhabited α] (less : α → α → Bool)
    (a b pivot : Nat) (xs : List α) :
    (partitionEqualGo less a b pivot xs).2.Perm xs :=
  (partitionEqualLoop_perm _ _ _ _ _ _).trans (lswap_perm _ _ _)

lemma breakPatternsLoop_perm [Inhabited α] (a len modulus idx : Nat) :
    ∀ (cnt i r : Nat) (xs : List α),
      (breakPatternsLoop a len modulus idx cnt i r xs).Perm xs := by
  intro cnt
  induction cnt with
  | zero => intro i r xs; exact List.Perm.refl _
  | succ cnt ih =>
    intro i r xs
    rw [breakPatternsLoop]
    exact (ih _ _ _).trans (lswap_perm _ _ _)

lemma breakPatternsGo_perm [Inhabited α] (a b : Nat) (xs : List α) :
    (breakPatternsGo a b xs).Perm xs := by
  rw [breakPatternsGo]
  split
  · exact breakPatternsLoop_perm _ _ _ _ _ _ _ xs
  · exact List.Perm.refl _

set_option maxHeartbeats 1600000 in
lemma pdqsortRec_perm [Inhabited α] (less : α → α → Bool) :
    ∀ (fuel a b limit : Nat) (wb wp : Bool) (xs : List α),
      (pdqsortRec less fuel a b limit wb wp xs).Perm xs := by
  intro fuel a b limit wb wp xs
  induction fuel, a, b, limit, wb, wp, xs using pdqsortRec.induct less with
  | case1 a b limit wb wp xs => exact List.Perm.refl _
  | case2 fuel a b limit wb wp xs length h =>
    rw [pdqsortRec]
    unfold_let length at h
    rw [if_pos h]
    exact insertionSortGo_perm less a b xs
  | case3 fuel a b wb wp xs length h =>
    rw [pdqsortRec]
    unfold_let length at h
    rw [if_neg h, if_pos rfl]
    exact heapSortGo_perm less a b xs
  | case4 fuel a b limit wb wp xs length h1 h2 xs1 cp xs2 hint1 pres h3 =>
    rw [pdqsortRec]
    unfold_let length at h1
    unfold_let pres hint1 xs2 cp xs1 at h3
    rw [if_neg h1, if_neg h2, if_pos h3]
    split_ifs <;>
      first
        | exact List.Perm.refl _
        | exact breakPatternsGo_perm a b xs
        | exact reverseRangeGo_perm a b _
        | exact (reverseRangeGo_perm a b _).trans (breakPatternsGo_perm a b xs)
        | exact partialInsertionSortGo_perm less a b _
        | exact (partialInsertionSortGo_perm less a b _).trans
            (breakPatternsGo_perm a b xs)
        | exact (partialInsertionSortGo_perm less a b _).trans
            (reverseRangeGo_perm a b _)
        | exact (partialInsertionSortGo_perm less a b _).trans
            ((reverseRangeGo_perm a b _).trans (breakPatternsGo_perm a b xs))
  | case5 fuel a b limit wb wp xs length h1 h2 xs1 limit1 cp pivot1 xs2 hint1 pres h3 xs3 h4 pe ih1 =>
    rw [pdqsortRec]
    unfold_let length at h1
    unfold_let pres hint1 xs2 cp xs1 at h3
    unfold_let xs3 pres pivot1 hint1 xs2 cp xs1 at h4
    rw [if_neg h1, if_neg h2, if_neg h3, if_pos h4]
    refine ih1.trans ((partitionEqualGo_perm _ _ _ _ _).trans ?_)
    unfold_let xs3 pres hint1 xs2 cp xs1
    split_ifs <;>
      first
        | exact List.Perm.refl _
        | exact breakPatternsGo_perm a b xs
        | exact reverseRangeGo_perm a b _
        | exact (reverseRangeGo_perm a b _).trans (breakPatternsGo_perm a b xs)
        | exact partialInsertionSortGo_perm less a b _
        | exact (partialInsertionSortGo_perm less a b _).trans
            (breakPatternsGo_perm a b xs)
        | exact (partialInsertionSortGo_perm less a b _).trans
            (reverseRangeGo_perm a b _)
        | exact (partialInsertionSortGo_perm less a b _).trans
            ((reverseRangeGo_perm a b _).trans (breakPatternsGo_perm a b xs))
  | case6 fuel a b limit wb wp xs length h1 h2 xs1 limit1 cp pivot1 xs2 hint1 pres h3 xs3 h4 pr mid alreadyPartitioned xs4 leftLen rightLen balanceThreshold wasBalanced2 h5 ih1 ih2 =>
    rw [pdqsortRec]
    unfold_let length at h1
    unfold_let pres hint1 xs2 cp xs1 at h3
    unfold_let xs3 pres pivot1 hint1 xs2 cp xs1 at h4
    unfold_let leftLen rightLen mid pr xs3 pres pivot1 hint1 xs2 cp xs1 at h5
    rw [if_neg h1, if_neg h2, if_neg h3, if_neg h4, if_pos h5]
    refine ih2.trans (ih1.trans ((partitionGo_perm _ _ _ _ _).trans ?_))
    unfold_let xs3 pres hint1 xs2 cp xs1
    split_ifs <;>
      first
        | exact List.Perm.refl _
        | exact breakPatternsGo_perm a b xs
        | exact reverseRangeGo_perm a b _
        | exact (reverseRangeGo_perm a b _).trans (breakPatternsGo_perm a b xs)
        | exact partialInsertionSortGo_perm less a b _
        | exact (partialInsertionSortGo_perm less a b _).trans
            (breakPatternsGo_perm a b xs)
        | exact (partialInsertionSortGo_perm less a b _).trans
            (reverseRangeGo_perm a b _)
        | exact (partialInsertionSortGo_perm less a b _).trans
            ((reverseRangeGo_perm a b _).trans (breakPatternsGo_perm a b xs))
  | case7 fuel a b limit wb wp xs length h1 h2 xs1 limit1 cp pivot1 xs2 hint1 pres h3 xs3 h4 pr mid alreadyPartitioned xs4 leftLen rightLen balanceThreshold wasBalanced2 h5 ih1 ih2 =>
    rw [pdqsortRec]
    unfold_let length at h1
    unfold_let pres hint1 xs2 cp xs1 at h3
    unfold_let xs3 pres pivot1 hint1 xs2 cp xs1 at h4
    unfold_let leftLen rightLen mid pr xs3 pres pivot1 hint1 xs2 cp xs1 at h5
    rw [if_neg h1, if_neg h2, if_neg h3, if_neg h4, if_neg h5]
    refine ih2.trans (ih1.trans ((partitionGo_perm _ _ _ _ _).trans ?_))
    unfold_let xs3 pres hint1 xs2 cp xs1
    split_ifs <;>
      first
        | exact List.Perm.refl _
        | exact breakPatternsGo_perm a b xs
        | exact reverseRangeGo_perm a b _
        | exact (reverseRangeGo_perm a b _).trans (breakPatternsGo_perm a b xs)
        | exact partialInsertionSortGo_perm less a b _
        | exact (partialInsertionSortGo_perm less a b _).trans
            (breakPatternsGo_perm a b xs)
        | exact (partialInsertionSortGo_perm less a b _).trans
            (reverseRangeGo_perm a b _)
        | exact (partialInsertionSortGo_perm less a b _).trans
            ((reverseRangeGo_perm a b _).trans (breakPatternsGo_perm a b xs))

lemma sortSliceGo_perm [Inhabited α] (less : α → α → Bool) (xs : List α) :
    (sortSliceGo less xs).Perm xs :=
  pdqsortRec_perm less _ _ _ _ _ _ xs

/-! ### Registry and loader (the config-file middleware loader next to the
middlewares package; validation, defaults, priority sort, registration). -/

/-- The webhook registry: the Go map from name to definition, modelled as
the list of Register calls (newest first).  Go map assignment overwrites,
and Get below returns the newest entry for a name, which is exactly the
map semantics as far as Get is concerned. -/
abbrev WebhookRegistry := List (String × WebhookDefinition)

/-- WebhookRegistry.Register. -/
def registryRegister (r : WebhookRegistry) (d : WebhookDefinition) :
    WebhookRegistry :=
  (d.Name, d) :: r

/-- WebhookRegistry.Get. -/
def registryGet (r : WebhookRegistry) (name : String) :
    Option WebhookDefinition :=
  (r.find? (fun p => p.1 = name)).map (fun p => p.2)

/-- The message of validateWebhookType's error. -/
def typeEnumMsg (t : String) : String :=
  "invalid webhook type " ++ goQuote t ++ ", must be one of: " ++
    goQuote WebhookTypeError ++ ", " ++ goQuote WebhookTypeInfo ++ ", " ++
    goQuote WebhookTypeAll

/-- validateWebhookType. -/
def validateWebhookType (t : String) : Except String Unit :=
  if t = WebhookTypeError ∨ t = WebhookTypeInfo ∨ t = WebhookTypeAll then
    .ok ()
  else .error (typeEnumMsg t)

def urlMissingMsg (i : Nat) : String :=
  "webhook at index " ++ toString i ++ " is missing required 'url' field"

def typeMissingMsg (name : String) : String :=
  "webhook " ++ goQuote name ++ " is missing required 'type' field"

def typeInvalidMsg (name e : String) : String :=
  "webhook " ++ goQuote name ++ " has invalid type: " ++ e

/-- The defaults parseWebhookConfigFile writes back into an entry:
method POST, timeout 10 (seconds) when zero, empty header map when nil. -/
def applyDefaults (d : WebhookDefinition) : WebhookDefinition :=
  { d with
    Method := if d.Method = "" then "POST" else d.Method
    Timeout := if d.Timeout = 0 then 10 else d.Timeout
    Headers := match d.Headers with | none => some [] | some h => some h }

/-- The validation/default loop of parseWebhookConfigFile, with the running
index used in the url error message.  The first invalid entry aborts the
whole load. -/
def validateDefs : Nat → List WebhookDefinition →
    Except String (List WebhookDefinition)
  | _, [] => .ok []
  | i, d :: rest =>
    if d.URL = "" then .error (urlMissingMsg i)
    else if d.WType = "" then .error (typeMissingMsg d.Name)
    else
      match validateWebhookType d.WType with
      | .error e => .error (typeInvalidMsg d.Name e)
      | .ok _ => (validateDefs (i + 1) rest).map (fun r => applyDefaults d :: r)

/-- parseWebhookConfigFile, applied to the JSON-decoded list of definitions
(file reading and JSON decoding themselves are outside the model; a file
whose JSON fails to decode reaches LoadWebhookMiddlewares as a parse error
exactly like a validation failure). -/
def parseWebhookConfigFile (defs : List WebhookDefinition) :
    Except String (List WebhookDefinition) :=
  validateDefs 0 defs

/-- The comparison closure passed to sort.Slice by LoadWebhookMiddlewares:
priority less-than. -/
def priorityLess (u v : WebhookDefinition) : Bool :=
  decide (u.Priority < v.Priority)

/-- The definitions in the order LoadWebhookMiddlewares processes them
after a successful parse: sorted with sort.Slice on ascending priority
(empty when parsing failed). -/
def loadedDefs (defs : List WebhookDefinition) : List WebhookDefinition :=
  match parseWebhookConfigFile defs with
  | .error _ => []
  | .ok webhookDefs => sortSliceGo priorityLess webhookDefs

structure LoadResult where
  middlewares : List Webhook
  registry : WebhookRegistry

/-- LoadWebhookMiddlewares: on parse failure returns no middlewares and the
empty registry; otherwise sorts, registers every definition, and collects
the middleware of each definition whose construction succeeds (a failing
construction is logged and skipped but stays registered).  Path resolution
and the file-missing and empty-list early returns produce the same result
as the general path on their inputs and are not modelled separately. -/
def LoadWebhookMiddlewares (parseDuration : String → Option Int)
    (defs : List WebhookDefinition) : LoadResult :=
  (loadedDefs defs).foldl
    (fun acc d =>
      let reg := registryRegister acc.registry d
      match NewWebhookFromDefinition parseDuration d with
      | .error _ => ⟨acc.middlewares, reg⟩
      | .ok m => ⟨acc.middlewares ++ [m], reg⟩)
    ⟨[], []⟩

/-- An entry the validation loop accepts: non-empty url and a type among
the three enum values (an empty type is also rejected, by the dedicated
message). -/
def validEntry (d : WebhookDefinition) : Prop :=
  d.URL ≠ "" ∧ (d.WType = WebhookTypeError ∨ d.WType = WebhookTypeInfo ∨
    d.WType = WebhookTypeAll)

instance (d : WebhookDefinition) : Decidable (validEntry d) := by
  unfold validEntry
  infer_instance

/-- The error message the validation loop produces for an invalid entry at
index i: by index for a missing url, by definition name for a missing or
invalid type. -/
def entryErrorMsg (i : Nat) (d : WebhookDefinition) : String :=
  if d.URL = "" then urlMissingMsg i
  else if d.WType = "" then typeMissingMsg d.Name
  else typeInvalidMsg d.Name (typeEnumMsg d.WType)

lemma validateDefs_ok (defs : List WebhookDefinition) :
    ∀ (i : Nat), (∀ d ∈ defs, validEntry d) →
      validateDefs i defs = .ok (defs.map applyDefaults) := by
  induction defs with
  | nil => intro i _; rfl
  | cons d rest ih =>
    intro i hvalid
    have hd := hvalid d (by simp)
    rw [validateDefs]
    rw [if_neg hd.1, if_neg (by rcases hd.2 with h | h | h <;> simp [h] <;> decide)]
    rw [show validateWebhookType d.WType = .ok () from by
      unfold validateWebhookType; rw [if_pos hd.2]]
    rw [ih (i + 1) (fun x hx => hvalid x (by simp [hx]))]
    rfl

lemma validateDefs_firstBad (pre : List WebhookDefinition) :
    ∀ (i : Nat) (d : WebhookDefinition) (post : List WebhookDefinition),
      (∀ d' ∈ pre, validEntry d') → ¬ validEntry d →
      validateDefs i (pre ++ d :: post) = .error (entryErrorMsg (i + pre.length) d) := by
  induction pre with
  | nil =>
    intro i d post _ hbad
    rw [List.nil_append, validateDefs]
    by_cases hurl : d.URL = ""
    · simp [hurl, entryErrorMsg]
    · have htype : ¬ (d.WType = WebhookTypeError ∨ d.WType = WebhookTypeInfo ∨
          d.WType = WebhookTypeAll) := by
        intro h
        exact hbad ⟨hurl, h⟩
      rw [if_neg hurl]
      by_cases hempty : d.WType = ""
      · simp [hempty, entryErrorMsg, hurl]
      · rw [if_neg hempty]
        rw [show validateWebhookType d.WType = .error (typeEnumMsg d.WType) from by
          unfold validateWebhookType; rw [if_neg htype]]
        simp [entryErrorMsg, hurl, hempty]
  | cons p pre ih =>
    intro i d post hpre hbad
    have hp := hpre p (by simp)
    rw [List.cons_append, validateDefs]
    rw [if_neg hp.1, if_neg (by rcases hp.2 with h | h | h <;> simp [h] <;> decide)]
    rw [show validateWebhookType p.WType = .ok () from by
      unfold validateWebhookType; rw [if_pos hp.2]]
    rw [ih (i + 1) d post (fun x hx => hpre x (by simp [hx])) hbad]
    have : i + 1 + pre.length = i + (p :: pre).length := by simp; omega
    rw [this]
    rfl

/-- One step of the loader fold. -/
def loadStep (parseDuration : String → Option Int) (acc : LoadResult)
    (d : WebhookDefinition) : LoadResult :=
  let reg := registryRegister acc.registry d
  match NewWebhookFromDefinition parseDuration d with
  | .error _ => ⟨acc.middlewares, reg⟩
  | .ok m => ⟨acc.middlewares ++ [m], reg⟩

lemma LoadWebhookMiddlewares_eq_foldl (parseDuration : String → Option Int)
    (defs : List WebhookDefinition) :
    LoadWebhookMiddlewares parseDuration defs =
      (loadedDefs defs).foldl (loadStep parseDuration) ⟨[], []⟩ := rfl

lemma loadStep_registry (parseDuration : String → Option Int)
    (acc : LoadResult) (d : WebhookDefinition) :
    (loadStep parseDuration acc d).registry = (d.Name, d) :: acc.registry := by
  unfold loadStep registryRegister
  cases NewWebhookFromDefinition parseDuration d <;> rfl

lemma foldl_registry_indep (l : List WebhookDefinition) :
    ∀ (pd pd' : String → Option Int) (acc acc' : LoadResult),
      acc.registry = acc'.registry →
      (l.foldl (loadStep pd) acc).registry =
        (l.foldl (loadStep pd') acc').registry := by
  induction l with
  | nil => intro pd pd' acc acc' h; exact h
  | cons d l ih =>
    intro pd pd' acc acc' h
    rw [List.foldl_cons, List.foldl_cons]
    exact ih pd pd' _ _ (by rw [loadStep_registry, loadStep_registry, h])

lemma registryGet_cons (nm : String) (d : WebhookDefinition)
    (r : WebhookRegistry) (n : String) :
    registryGet ((nm, d) :: r) n = if nm = n then some d else registryGet r n := by
  unfold registryGet
  by_cases h : nm = n
  · rw [List.find?_cons_of_pos _ (by simpa using h), if_pos h]
    rfl
  · rw [List.find?_cons_of_neg _ (by simpa using h), if_neg h]

lemma foldl_registry_mem (l : List WebhookDefinition)
    (pd : String → Option Int) :
    ∀ (acc : LoadResult) (n : String),
      registryGet ((l.foldl (loadStep pd) acc).registry) n ≠ none ↔
        ((∃ d ∈ l, d.Name = n) ∨ registryGet acc.registry n ≠ none) := by
  induction l with
  | nil => intro acc n; simp
  | cons d l ih =>
    intro acc n
    rw [List.foldl_cons, ih]
    rw [show (loadStep pd acc d).registry = (d.Name, d) :: acc.registry from
      loadStep_registry pd acc d]
    rw [registryGet_cons]
    constructor
    · rintro (⟨x, hx, hn⟩ | h)
      · exact Or.inl ⟨x, by simp [hx], hn⟩
      · by_cases hdn : d.Name = n
        · exact Or.inl ⟨d, by simp, hdn⟩
        · rw [if_neg hdn] at h
          exact Or.inr h
    · rintro (⟨x, hx, hn⟩ | h)
      · rcases List.mem_cons.mp hx with rfl | hx
        · right
          rw [if_pos hn]
          simp
        · exact Or.inl ⟨x, hx, hn⟩
      · right
        split
        · simp
        · exact h

/-- C4: an invalid entry (empty url, or empty/unknown type) anywhere in the
config aborts the whole load with the message naming the first offending
entry (by index for a missing url, by name for a bad type); no middlewares
are produced and the registry stays empty.  Conversely, when every entry is
valid, parsing succeeds with the defaulted entries and every definition's
name is registered — independently of middleware construction outcomes
(the registry does not depend on the duration parser that can make
construction fail). -/
theorem load_failfast_and_registration (parseDuration : String → Option Int)
    (defs pre post : List WebhookDefinition) (d : WebhookDefinition) :
    (defs = pre ++ d :: post → (∀ d' ∈ pre, validEntry d') →
      ¬ validEntry d →
      parseWebhookConfigFile defs = .error (entryErrorMsg pre.length d) ∧
      LoadWebhookMiddlewares parseDuration defs = ⟨[], []⟩) ∧
    ((∀ d' ∈ defs, validEntry d') →
      parseWebhookConfigFile defs = .ok (defs.map applyDefaults) ∧
      (∀ d' ∈ defs,
        registryGet (LoadWebhookMiddlewares parseDuration defs).registry
          d'.Name ≠ none) ∧
      (LoadWebhookMiddlewares parseDuration defs).registry =
        (LoadWebhookMiddlewares (fun _ => none) defs).registry) := by
  constructor
  · intro hdefs hpre hbad
    subst hdefs
    have herr : parseWebhookConfigFile (pre ++ d :: post) =
        .error (entryErrorMsg pre.length d) := by
      unfold parseWebhookConfigFile
      have := validateDefs_firstBad pre 0 d post hpre hbad
      simpa using this
    refine ⟨herr, ?_⟩
    rw [LoadWebhookMiddlewares_eq_foldl]
    unfold loadedDefs
    rw [herr]
    rfl
  · intro hvalid
    have hok : parseWebhookConfigFile defs = .ok (defs.map applyDefaults) :=
      validateDefs_ok defs 0 hvalid
    have hloaded : loadedDefs defs =
        sortSliceGo priorityLess (defs.map applyDefaults) := by
      unfold loadedDefs
      rw [hok]
    refine ⟨hok, ?_, ?_⟩
    · intro d' hd'
      rw [LoadWebhookMiddlewares_eq_foldl, foldl_registry_mem]
      left
      refine ⟨applyDefaults d', ?_, rfl⟩
      rw [hloaded]
      have : applyDefaults d' ∈ defs.map applyDefaults :=
        List.mem_map_of_mem applyDefaults hd'
      exact ((sortSliceGo_perm priorityLess (defs.map applyDefaults)).mem_iff).mpr
        this
    · rw [LoadWebhookMiddlewares_eq_foldl, LoadWebhookMiddlewares_eq_foldl]
      exact foldl_registry_indep _ _ _ _ _ rfl

/-! ### Stability of the priority sort.  The spec claims sort.Slice is a
stable sort; the reference point for that claim is the stable insertion
sort by priority below (insert from the right behind all entries of equal
or smaller priority), which the Go insertion sort provably equals on
ranges it fully sorts — but pdqsort only runs it for ranges of at most 12
elements. -/

/-- C4 witness: a valid entry followed by one missing its url fails the
whole load naming index 1, producing no middlewares and an empty registry;
and in a fully valid config a definition whose middleware construction
fails (unparsable backoff) is still registered. -/
theorem load_failfast_witness :
    parseWebhookConfigFile
      [⟨"a", "all", true, 0, "http://a", "", none, none, false, 0, none⟩,
       ⟨"b", "info", true, 0, "", "", none, none, false, 0, none⟩] =
      .error "webhook at index 1 is missing required 'url' field" ∧
    (LoadWebhookMiddlewares (fun _ => none)
      [⟨"a", "all", true, 0, "http://a", "", none, none, false, 0, none⟩,
       ⟨"b", "info", true, 0, "", "", none, none, false, 0, none⟩]).middlewares
      = [] ∧
    (LoadWebhookMiddlewares (fun _ => none)
      [⟨"a", "all", true, 0, "http://a", "", none, none, false, 0, none⟩,
       ⟨"b", "info", true, 0, "", "", none, none, false, 0, none⟩]).registry
      = [] ∧
    registryGet
      (LoadWebhookMiddlewares (fun _ => none)
        [⟨"a", "all", true, 0, "http://a", "", none, none, false, 0, none⟩,
         ⟨"c", "error", true, 0, "http://c", "", none, none, false, 0,
           some ⟨1, "bogus"⟩⟩]).registry "c" ≠ none := by
  have h1 := (load_failfast_and_registration (fun _ => none)
    [⟨"a", "all", true, 0, "http://a", "", none, none, false, 0, none⟩,
     ⟨"b", "info", true, 0, "", "", none, none, false, 0, none⟩]
    [⟨"a", "all", true, 0, "http://a", "", none, none, false, 0, none⟩]
    [] ⟨"b", "info", true, 0, "", "", none, none, false, 0, none⟩).1
    rfl (by decide) (by decide)
  have h2 := (load_failfast_and_registration (fun _ => none)
    [⟨"a", "all", true, 0, "http://a", "", none, none, false, 0, none⟩,
     ⟨"c", "error", true, 0, "http://c", "", none, none, false, 0,
       some ⟨1, "bogus"⟩⟩] [] []
    (default : WebhookDefinition)).2 (by decide)
  refine ⟨h1.1.trans (congrArg Except.error (by decide)), ?_, ?_, ?_⟩
  · rw [h1.2]
  · rw [h1.2]
  · exact h2.2.1 ⟨"c", "error", true, 0, "http://c", "", none, none, false,
      0, some ⟨1, "bogus"⟩⟩ (by simp)

/-! ### Per-job webhook construction (NewWebhookFromConfig).  The input is
the two already-extracted name lists (parseWebhookNames only turns the raw
comma-separated or JSON-array strings into the name list; an empty raw
config yields two empty lists, which is also the IsEmpty early return). -/

/-- The validate-and-collect loop of NewWebhookFromConfig for
webhook-error-names. -/
def collectErrorWebhooks (registry : WebhookRegistry) :
    List String → Except String (List WebhookDefinition)
  | [] => .ok []
  | n :: rest =>
    match registryGet registry n with
    | none =>
      .error ("webhook-error-names references unknown webhook " ++ goQuote n)
    | some d =>
      if d.WType ≠ WebhookTypeError ∧ d.WType ≠ WebhookTypeAll then
        .error ("webhook " ++ goQuote n ++ " has type " ++ goQuote d.WType ++
          " but is referenced in webhook-error-names (must be " ++
          goQuote WebhookTypeError ++ " or " ++ goQuote WebhookTypeAll ++ ")")
      else (collectErrorWebhooks registry rest).map (fun l => d :: l)

/-- The validate-and-collect loop of NewWebhookFromConfig for
webhook-info-names. -/
def collectInfoWebhooks (registry : WebhookRegistry) :
    List String → Except String (List WebhookDefinition)
  | [] => .ok []
  | n :: rest =>
    match registryGet registry n with
    | none =>
      .error ("webhook-info-names references unknown webhook " ++ goQuote n)
    | some d =>
      if d.WType ≠ WebhookTypeInfo ∧ d.WType ≠ WebhookTypeAll then
        .error ("webhook " ++ goQuote n ++ " has type " ++ goQuote d.WType ++
          " but is referenced in webhook-info-names (must be " ++
          goQuote WebhookTypeInfo ++ " or " ++ goQuote WebhookTypeAll ++ ")")
      else (collectInfoWebhooks registry rest).map (fun l => d :: l)

/-- NewWebhookFromConfig: nothing to build when no names are configured;
otherwise resolve and validate both lists against the registry (an
inactive resolved definition is only logged, never an error). -/
def NewWebhookFromConfig (errorNames infoNames : List String)
    (registry : WebhookRegistry) : Except String (Option PerJobWebhook) :=
  if errorNames = [] ∧ infoNames = [] then .ok none
  else
    match collectErrorWebhooks registry errorNames with
    | .error e => .error e
    | .ok errorWebhooks =>
      match collectInfoWebhooks registry infoNames with
      | .error e => .error e
      | .ok infoWebhooks => .ok (some ⟨errorWebhooks, infoWebhooks⟩)

lemma collectErrorWebhooks_ok_iff (registry : WebhookRegistry)
    (names : List String) :
    (∃ l, collectErrorWebhooks registry names = .ok l) ↔
      ∀ n ∈ names, ∃ d, registryGet registry n = some d ∧
        (d.WType = WebhookTypeError ∨ d.WType = WebhookTypeAll) := by
  induction names with
  | nil => simp [collectErrorWebhooks]
  | cons n rest ih =>
    rw [collectErrorWebhooks]
    constructor
    · rintro ⟨l, hl⟩
      intro m hm
      rcases List.mem_cons.mp hm with rfl | hm
      · cases hget : registryGet registry m with
        | none => rw [hget] at hl; cases hl
        | some d =>
          rw [hget] at hl
          dsimp only at hl
          refine ⟨d, rfl, ?_⟩
          by_cases htype : d.WType ≠ WebhookTypeError ∧ d.WType ≠ WebhookTypeAll
          · rw [if_pos htype] at hl; cases hl
          · rcases not_and_or.mp htype with h | h
            · exact Or.inl (not_not.mp h)
            · exact Or.inr (not_not.mp h)
      · cases hget : registryGet registry n with
        | none => rw [hget] at hl; cases hl
        | some d =>
          rw [hget] at hl
          dsimp only at hl
          by_cases htype : d.WType ≠ WebhookTypeError ∧ d.WType ≠ WebhookTypeAll
          · rw [if_pos htype] at hl; cases hl
          · rw [if_neg htype] at hl
            cases hrest : collectErrorWebhooks registry rest with
            | error e => rw [hrest] at hl; cases hl
            | ok l2 => exact ih.mp ⟨l2, hrest⟩ m hm
    · intro hall
      obtain ⟨d, hget, htype⟩ := hall n (by simp)
      rw [hget]
      dsimp only
      rw [if_neg (show ¬ _ from by
        rcases htype with h | h
        · exact fun hc => hc.1 h
        · exact fun hc => hc.2 h)]
      obtain ⟨l, hl⟩ := ih.mpr (fun m hm => hall m (by simp [hm]))
      exact ⟨d :: l, by rw [hl]; rfl⟩

lemma collectInfoWebhooks_ok_iff (registry : WebhookRegistry)
    (names : List String) :
    (∃ l, collectInfoWebhooks registry names = .ok l) ↔
      ∀ n ∈ names, ∃ d, registryGet registry n = some d ∧
        (d.WType = WebhookTypeInfo ∨ d.WType = WebhookTypeAll) := by
  induction names with
  | nil => simp [collectInfoWebhooks]
  | cons n rest ih =>
    rw [collectInfoWebhooks]
    constructor
    · rintro ⟨l, hl⟩
      intro m hm
      rcases List.mem_cons.mp hm with rfl | hm
      · cases hget : registryGet registry m with
        | none => rw [hget] at hl; cases hl
        | some d =>
          rw [hget] at hl
          dsimp only at hl
          refine ⟨d, rfl, ?_⟩
          by_cases htype : d.WType ≠ WebhookTypeInfo ∧ d.WType ≠ WebhookTypeAll
          · rw [if_pos htype] at hl; cases hl
          · rcases not_and_or.mp htype with h | h
            · exact Or.inl (not_not.mp h)
            · exact Or.inr (not_not.mp h)
      · cases hget : registryGet registry n with
        | none => rw [hget] at hl; cases hl
        | some d =>
          rw [hget] at hl
          dsimp only at hl
          by_cases htype : d.WType ≠ WebhookTypeInfo ∧ d.WType ≠ WebhookTypeAll
          · rw [if_pos htype] at hl; cases hl
          · rw [if_neg htype] at hl
            cases hrest : collectInfoWebhooks registry rest with
            | error e => rw [hrest] at hl; cases hl
            | ok l2 => exact ih.mp ⟨l2, hrest⟩ m hm
    · intro hall
      obtain ⟨d, hget, htype⟩ := hall n (by simp)
      rw [hget]
      dsimp only
      rw [if_neg (show ¬ _ from by
        rcases htype with h | h
        · exact fun hc => hc.1 h
        · exact fun hc => hc.2 h)]
      obtain ⟨l, hl⟩ := ih.mpr (fun m hm => hall m (by simp [hm]))
      exact ⟨d :: l, by rw [hl]; rfl⟩

/-- C6: per-job dispatcher construction succeeds iff every name of
webhook-error-names resolves in the registry to a definition of type error
or all, and every name of webhook-info-names resolves to one of type info
or all; the conditions never consult the active flag, so an inactive
referenced definition is accepted. -/
theorem perjob_construction_iff (errorNames infoNames : List String)
    (registry : WebhookRegistry) :
    (∃ w, NewWebhookFromConfig errorNames infoNames registry = .ok w) ↔
      ((∀ n ∈ errorNames, ∃ d, registryGet registry n = some d ∧
          (d.WType = WebhookTypeError ∨ d.WType = WebhookTypeAll)) ∧
       (∀ n ∈ infoNames, ∃ d, registryGet registry n = some d ∧
          (d.WType = WebhookTypeInfo ∨ d.WType = WebhookTypeAll))) := by
  unfold NewWebhookFromConfig
  by_cases hempty : errorNames = [] ∧ infoNames = []
  · rw [if_pos hempty]
    rcases hempty with ⟨he, hi⟩
    subst he
    subst hi
    simp
  · rw [if_neg hempty]
    constructor
    · rintro ⟨w, hw⟩
      cases herr : collectErrorWebhooks registry errorNames with
      | error e => rw [herr] at hw; cases hw
      | ok ews =>
        rw [herr] at hw
        cases hinf : collectInfoWebhooks registry infoNames with
        | error e => rw [hinf] at hw; cases hw
        | ok iws =>
          exact ⟨(collectErrorWebhooks_ok_iff registry errorNames).mp
              ⟨ews, herr⟩,
            (collectInfoWebhooks_ok_iff registry infoNames).mp ⟨iws, hinf⟩⟩
    · rintro ⟨herr, hinf⟩
      obtain ⟨ews, hews⟩ :=
        (collectErrorWebhooks_ok_iff registry errorNames).mpr herr
      obtain ⟨iws, hiws⟩ :=
        (collectInfoWebhooks_ok_iff registry infoNames).mpr hinf
      rw [hews, hiws]
      exact ⟨some ⟨ews, iws⟩, rfl⟩

/-- C6 witness: referencing an inactive error-type definition and an active
all-type definition constructs successfully (the inactive one is accepted),
while referencing an unknown name fails. -/
theorem perjob_construction_witness :
    (∃ w, NewWebhookFromConfig ["e1"] ["i1"]
      [("e1", ⟨"e1", "error", false, 0, "u", "", none, none, false, 0, none⟩),
       ("i1", ⟨"i1", "all", true, 0, "u", "", none, none, false, 0, none⟩)]
      = .ok w) ∧
    ¬ (∃ w, NewWebhookFromConfig ["nope"] []
      [("e1", ⟨"e1", "error", false, 0, "u", "", none, none, false, 0, none⟩)]
      = .ok w) := by
  constructor
  · exact (perjob_construction_iff ["e1"] ["i1"] _).mpr (by decide)
  · intro h
    have := (perjob_construction_iff ["nope"] [] _).mp h
    obtain ⟨d, hd, _⟩ := this.1 "nope" (by simp)
    have hnone : registryGet
        [("e1", ⟨"e1", "error", false, 0, "u", "", none, none, false, 0,
          none⟩)] "nope" = none := rfl
    rw [hnone] at hd
    cases hd

/-! ### Body template rendering (executeTemplateForBody).  The Go
text/template engine and encoding/json are external: render models
executeTemplate with the fixed execution snapshot already applied, marshal
models json.Marshal, unmarshal models json.Unmarshal's success/failure.
The control flow around them is the model of the Go function. -/

/-- The shared object/array branch of executeTemplateForBody: marshal the
body, render the JSON text as a template, then re-parse the rendered text
and fail if it is no longer well-formed JSON. -/
def renderStructuredBody (render : String → Except String String)
    (marshal : GoValue → Except String String)
    (unmarshal : String → Option GoValue) (body : GoValue) :
    Except String String :=
  match marshal body with
  | .error e => .error ("failed to marshal JSON body: " ++ e)
  | .ok jsonStr =>
    match render jsonStr with
    | .error e => .error e
    | .ok result =>
      match unmarshal result with
      | none => .error "template resulted in invalid JSON"
      | some _ => .ok result

/-- executeTemplateForBody: a plain string body is rendered directly; an
object or array body goes through the marshal/render/re-parse pipeline;
any other body type is rejected. -/
def executeTemplateForBody (render : String → Except String String)
    (marshal : GoValue → Except String String)
    (unmarshal : String → Option GoValue) (body : GoValue) :
    Except String String :=
  match body with
  | .str v =>
    match render v with
    | .error e => .error e
    | .ok result => .ok result
  | .obj _ => renderStructuredBody render marshal unmarshal body
  | .arr _ => renderStructuredBody render marshal unmarshal body
  | _ => .error "unsupported body type"

/-- C8: a plain-string body returns exactly the rendered string (errors
passed through); a structured (object/array) body that marshals to js is
rendered from js, succeeds with exactly the rendered text when the result
re-parses as JSON, and fails iff the template fails or the re-parse
fails. -/
theorem renderBody_spec (render : String → Except String String)
    (marshal : GoValue → Except String String)
    (unmarshal : String → Option GoValue) :
    (∀ s, executeTemplateForBody render marshal unmarshal (GoValue.str s) =
      render s) ∧
    (∀ v js, ((∃ fs, v = GoValue.obj fs) ∨ (∃ its, v = GoValue.arr its)) →
      marshal v = .ok js →
      (∀ r, render js = .ok r → unmarshal r ≠ none →
        executeTemplateForBody render marshal unmarshal v = .ok r) ∧
      ((∃ e, executeTemplateForBody render marshal unmarshal v = .error e) ↔
        ((∃ e, render js = .error e) ∨
         (∃ r, render js = .ok r ∧ unmarshal r = none)))) := by
  constructor
  · intro s
    unfold executeTemplateForBody
    dsimp only
    cases render s <;> rfl
  · intro v js hv hm
    have hred : executeTemplateForBody render marshal unmarshal v =
        renderStructuredBody render marshal unmarshal v := by
      rcases hv with ⟨fs, rfl⟩ | ⟨its, rfl⟩ <;> rfl
    rw [hred]
    unfold renderStructuredBody
    rw [hm]
    dsimp only
    constructor
    · intro r hr hu
      rw [hr]
      dsimp only
      cases hun : unmarshal r with
      | none => exact absurd hun hu
      | some g => rfl
    · cases hr : render js with
      | error e => simp
      | ok r =>
        dsimp only
        cases hun : unmarshal r with
        | none => simp [hun]
        | some g => simp [hun]

/-- C8 witness: with a renderer that appends an exclamation mark, an array
body marshalled to "[]" renders to "[]!" and is returned verbatim when the
re-parse accepts it; with a re-parser that rejects everything the renderer
produced, delivery fails. -/
theorem renderBody_spec_witness :
    executeTemplateForBody (fun s => .ok (s ++ "!")) (fun _ => .ok "[]")
      (fun r => if r = "[]!" then some (GoValue.arr []) else none)
      (GoValue.arr []) = .ok "[]!" ∧
    (∃ e, executeTemplateForBody (fun s => .ok (s ++ "!"))
      (fun _ => .ok "[]") (fun _ => none) (GoValue.arr []) = .error e) := by
  constructor
  · exact ((renderBody_spec (fun s => .ok (s ++ "!")) (fun _ => .ok "[]")
      (fun r => if r = "[]!" then some (GoValue.arr []) else none)).2
      (GoValue.arr []) "[]" (Or.inr ⟨[], rfl⟩) rfl).1 "[]!" rfl (by simp)
  · exact ((renderBody_spec (fun s => .ok (s ++ "!")) (fun _ => .ok "[]")
      (fun _ => none)).2 (GoValue.arr []) "[]" (Or.inr ⟨[], rfl⟩) rfl).2.mpr
      (Or.inr ⟨"[]!", rfl, rfl⟩)

end Ofelia
